import Mathlib

/-!
Shallow embedding of the FeedPulse feedback-analytics worker (src/index.ts).

JavaScript strings are modelled through their character lists (`String.data`);
`toLowerCase` is modelled on the ASCII range (the themes handled by the
program are ASCII keywords), `trim` removes leading and trailing whitespace.
Records coming back from the D1 store are modelled by `Row`; the `themes`
column holds parsed JSON, with `none` standing for a stored value that fails
to parse as a JSON array (the code skips such rows' themes).
Rational numbers stand in for JavaScript's numeric arithmetic on the small
integer counts involved; `Math.round` is `round` on `ℚ` (both round halves
up).
-/

namespace FeedPulse

/-- Whitespace characters recognised by the model of `String.prototype.trim`. -/
def isWS (c : Char) : Bool :=
  c = ' ' || c = '\t' || c = '\n' || c = '\r'

/-- ASCII model of JavaScript `toLowerCase` on one character. -/
def lowerChar (c : Char) : Char :=
  if 65 ≤ c.toNat ∧ c.toNat ≤ 90 then Char.ofNat (c.toNat + 32) else c

/-- Model of `s.toLowerCase()` on the character list. -/
def jsToLowerList (l : List Char) : List Char :=
  l.map lowerChar

/-- Model of `s.trim()` on the character list. -/
def jsTrimList (l : List Char) : List Char :=
  (((l.dropWhile isWS).reverse.dropWhile isWS).reverse)

/-- `s.toLowerCase()` at `String` level. -/
def jsToLower (s : String) : String :=
  ⟨jsToLowerList s.data⟩

/-- `s.trim()` at `String` level. -/
def jsTrim (s : String) : String :=
  ⟨jsTrimList s.data⟩

/-- `theme.toLowerCase().trim()` — the theme normalisation used everywhere
in the worker (`handleGetInsights`, `handleGetThemes`, `handleGetAIInsights`). -/
def normTheme (s : String) : String :=
  jsTrim (jsToLower s)

inductive Sentiment where
  | positive | negative | neutral
deriving DecidableEq, Repr

inductive Category where
  | bug | feature | praise | complaint
deriving DecidableEq, Repr

inductive Source where
  | twitter | discord | github | support
deriving DecidableEq, Repr

/-- A feedback row as read back from the store.  `themes` is the parsed JSON
of the `themes` column: `none` models a stored value that is not a JSON
array (the aggregation code catches the parse failure / fails the
`Array.isArray` test and skips that row's themes). -/
structure Row where
  id : Nat
  source : Source
  sentiment : Sentiment
  category : Category
  priority : Int
  themes : Option (List String)
  created_at : Nat
deriving DecidableEq, Repr

/-- The normalised, non-empty themes contributed by one row
(`themes.forEach` body: normalise, skip falsy strings). -/
def rowThemes (r : Row) : List String :=
  ((r.themes.getD []).map normTheme).filter (fun t => t ≠ "")

/-- `themeCounts[t] = (themeCounts[t] || 0) + 1` over an association list kept
in first-encounter (insertion) order, as a JS object's string keys are. -/
def bump : List (String × Nat) → String → List (String × Nat)
  | [], t => [(t, 1)]
  | (k, c) :: rest, t =>
      if k = t then (k, c + 1) :: rest else (k, c) :: bump rest t

/-- One row's contribution to the theme-count object. -/
def addRowThemes (acc : List (String × Nat)) (r : Row) : List (String × Nat) :=
  (rowThemes r).foldl bump acc

/-- The theme-count object built by scanning the record set
(`handleGetInsights` lines 312–327 and `handleGetAIInsights` lines 553–568);
entries are in first-encounter order. -/
def themeEntries (recs : List Row) : List (String × Nat) :=
  recs.foldl addRowThemes []

/-- Count associated to a theme in a count object (0 when absent). -/
def countOf (t : String) (l : List (String × Nat)) : Nat :=
  ((l.find? (fun e => e.1 = t)).map (fun e => e.2)).getD 0

/-- The flattened scan order of normalised non-empty theme occurrences. -/
def occList (recs : List Row) : List String :=
  (recs.map rowThemes).flatten

/-- One step of first-occurrence deduplication. -/
def dedupStep (d : List String) (t : String) : List String :=
  if t ∈ d then d else d ++ [t]

/-- First-occurrence deduplication of a list (keeps the first copy of each
element, in encounter order). -/
def firstDedup (l : List String) : List String :=
  l.foldl dedupStep []

/-- Stable insertion (by a `Nat` key, descending): the new element goes in
front of the first element whose key it reaches.  Folding `insertKeyDesc`
from the right is a stable descending sort, matching the stable
`Array.prototype.sort((a, b) => b.count - a.count)` of the source. -/
def insertKeyDesc (key : α → Nat) (x : α) : List α → List α
  | [] => [x]
  | y :: ys => if key y ≤ key x then x :: y :: ys else y :: insertKeyDesc key x ys

/-- Stable sort by a `Nat` key, descending. -/
def sortKeyDesc (key : α → Nat) (l : List α) : List α :=
  l.foldr (insertKeyDesc key) []

/-- `topThemes` of `handleGetInsights` (lines 330–333): sort the count
object's entries by count descending (stable) and keep the first 5. -/
def topThemes (recs : List Row) : List (String × Nat) :=
  (sortKeyDesc (fun e => e.2) (themeEntries recs)).take 5

/-! ### Insight engine (`handleGetAIInsights`) -/

/-- `negativeThemePriorities[t].total += f.priority; .count++` over an
association list in first-encounter order. -/
def bumpPr : List (String × Int × Nat) → String → Int → List (String × Int × Nat)
  | [], t, p => [(t, p, 1)]
  | (k, tot, c) :: rest, t, p =>
      if k = t then (k, tot + p, c + 1) :: rest else (k, tot, c) :: bumpPr rest t p

/-- Per-theme `(priority sum, count)` accumulated over the themes of the
negative rows (`handleGetAIInsights` lines 448–469), in first-encounter
order. -/
def negThemeEntries (recs : List Row) : List (String × Int × Nat) :=
  recs.foldl
    (fun acc r =>
      if r.sentiment = Sentiment.negative then
        (rowThemes r).foldl (fun a t => bumpPr a t r.priority) acc
      else acc)
    []

/-- Average priority of one `(theme, total, count)` entry. -/
def entryAvg (e : String × Int × Nat) : ℚ :=
  (e.2.1 : ℚ) / (e.2.2 : ℚ)

structure UrgentIssue where
  theme : String
  avgPriority : ℚ
  count : Nat
deriving DecidableEq, Repr

/-- One iteration of the `mostUrgentIssue` selection loop (lines 473–479):
replace the best entry when the average is strictly larger, or equal with a
strictly larger count (`mostUrgentIssue?.count || 0`); `avgPriority` is
`Math.round(avg * 10) / 10`. -/
def urgentStep (best : ℚ × Option UrgentIssue) (e : String × Int × Nat) :
    ℚ × Option UrgentIssue :=
  if entryAvg e > best.1 ∨
      (entryAvg e = best.1 ∧ e.2.2 > ((best.2.map UrgentIssue.count).getD 0)) then
    (entryAvg e, some ⟨e.1, (round (entryAvg e * 10) : ℚ) / 10, e.2.2⟩)
  else best

/-- The selection loop of `mostUrgentIssue` (lines 471–479), starting from
`highestAvgPriority = 0`, `mostUrgentIssue = null`. -/
def pickUrgent (es : List (String × Int × Nat)) : Option UrgentIssue :=
  (es.foldl urgentStep (0, none)).2

/-- `mostUrgentIssue` of `handleGetAIInsights`. -/
def mostUrgentIssue (recs : List Row) : Option UrgentIssue :=
  pickUrgent (negThemeEntries recs)

/-- Loop invariant of the `mostUrgentIssue` selection fold over the entries
seen so far: either nothing is selected yet and no seen entry was selectable
from the `(0, null)` start state, or the selected entry is a seen entry that
is lexicographically maximal in (average, then count). -/
def UState (seen : List (String × Int × Nat)) (b : ℚ × Option UrgentIssue) : Prop :=
  (b = (0, none) ∧ ∀ e ∈ seen, entryAvg e < 0 ∨ (entryAvg e = 0 ∧ e.2.2 = 0)) ∨
  (∃ e ∈ seen, b.1 = entryAvg e ∧
    b.2 = some ⟨e.1, (round (entryAvg e * 10) : ℚ) / 10, e.2.2⟩ ∧
    ∀ f ∈ seen, entryAvg f < entryAvg e ∨ (entryAvg f = entryAvg e ∧ f.2.2 ≤ e.2.2))

inductive TrendTag where
  | improving | declining | stable
deriving DecidableEq, Repr

structure SentTrend where
  trend : TrendTag
  description : String
  recentPositive : Nat
  recentNegative : Nat
deriving DecidableEq, Repr

/-- Number of rows of a given sentiment (`items.filter(...).length`). -/
def countSent (s : Sentiment) (items : List Row) : Nat :=
  (items.filter (fun r => r.sentiment = s)).length

/-- `calcPositiveRatio` (lines 514–519); the inner `items.length > 0`
ternary of the source is kept even though its else-branch is unreachable. -/
def calcPositiveRatio (items : List Row) : ℚ :=
  if items.length = 0 then 0
  else if items.length > 0 then
    ((countSent Sentiment.positive items : ℚ) - countSent Sentiment.negative items)
      / items.length
  else 0

/-- `midpoint || 1` (lines 510–512): the length of the recent half. -/
def recentLen (recs : List Row) : Nat :=
  if recs.length / 2 = 0 then 1 else recs.length / 2

/-- Sentiment-trend computation (lines 509–550), on the record set ordered
newest first; only reached when the record set is non-empty. -/
def sentimentTrend (recs : List Row) : SentTrend :=
  let recentHalf := recs.take (recentLen recs)
  let olderHalf := recs.drop (recentLen recs)
  let diff := calcPositiveRatio recentHalf - calcPositiveRatio olderHalf
  let recentPositive := countSent Sentiment.positive recentHalf
  let recentNegative := countSent Sentiment.negative recentHalf
  if diff > 1/10 then
    ⟨TrendTag.improving, "Sentiment is getting more positive recently",
      recentPositive, recentNegative⟩
  else if diff < -(1/10) then
    ⟨TrendTag.declining, "More negative feedback in recent entries",
      recentPositive, recentNegative⟩
  else
    ⟨TrendTag.stable, "Sentiment has remained consistent",
      recentPositive, recentNegative⟩

structure DistEntry where
  theme : String
  count : Nat
  percentage : Int
deriving DecidableEq, Repr

/-- `totalThemeMentions`: sum of the counts over *all* themes (line 570). -/
def totalMentions (recs : List Row) : Nat :=
  ((themeEntries recs).map (fun e => e.2)).sum

/-- `themeDistribution` (lines 571–578): top 5 of the count object by count
descending (stable), each with `Math.round((count / totalMentions) * 100)`. -/
def themeDistribution (recs : List Row) : List DistEntry :=
  ((sortKeyDesc (fun e => e.2) (themeEntries recs)).take 5).map
    (fun e => ⟨e.1, e.2, round (((e.2 : ℚ) / (totalMentions recs : ℚ)) * 100)⟩)

/-! ### Classifier gateway (`analyzeFeedback`) -/

/-- JSON values as produced by `JSON.parse` (objects carry no payload here:
the sanitiser only ever distinguishes them from the primitive shapes). -/
inductive JVal where
  | jnull
  | jbool (b : Bool)
  | jnum (q : ℚ)
  | jstr (s : String)
  | jarr (elems : List JVal)
  | jobj

/-- Value of a list of decimal digit characters. -/
def digitsVal (l : List Char) : Nat :=
  l.foldl (fun n c => n * 10 + (c.toNat - 48)) 0

/-- Unsigned decimal numeral: digits, optionally followed by a dot and
fractional digits (at least one digit on one side). -/
def parseDec (l : List Char) : Option ℚ :=
  match l.span Char.isDigit with
  | (ds, []) => if ds = [] then none else some (digitsVal ds)
  | (ds, '.' :: fs) =>
      if (ds ≠ [] ∨ fs ≠ []) ∧ fs.all Char.isDigit then
        some ((digitsVal ds : ℚ) + (digitsVal fs : ℚ) / (10 : ℚ) ^ fs.length)
      else none
  | _ => none

/-- Simplified model of JavaScript `ToNumber` on strings: optional sign and
a decimal numeral after trimming (hex/exponent/`Infinity` forms are not
modelled); `none` is `NaN`; the empty/whitespace string coerces to 0. -/
def strToNumber (s : String) : Option ℚ :=
  match jsTrimList s.data with
  | [] => some 0
  | '-' :: rest => (parseDec rest).map Neg.neg
  | '+' :: rest => parseDec rest
  | l => parseDec l

/-- JavaScript `ToNumber` on JSON values; `none` is `NaN`.  (A one-element
array coerces through its string form; the model treats only the empty
array's well-known value.) -/
def toNumber : JVal → Option ℚ
  | JVal.jnull => some 0
  | JVal.jbool b => some (if b then 1 else 0)
  | JVal.jnum q => some q
  | JVal.jstr s => strToNumber s
  | JVal.jarr [] => some 0
  | JVal.jarr (_ :: _) => none
  | JVal.jobj => none

/-- JavaScript `String(v)` on JSON values (number rendering simplified:
integral rationals print their integer). -/
def jsToString : JVal → String
  | JVal.jnull => "null"
  | JVal.jbool b => if b then "true" else "false"
  | JVal.jnum q => if q.den = 1 then toString q.num else toString q
  | JVal.jstr s => s
  | JVal.jarr l => String.intercalate "," (jsToStringElems l)
  | JVal.jobj => "[object Object]"
where
  /-- `Array.prototype.toString` renders `null` elements as the empty
  string. -/
  jsToStringElems : List JVal → List String
  | [] => []
  | JVal.jnull :: rest => "" :: jsToStringElems rest
  | v :: rest => jsToString v :: jsToStringElems rest

/-- The object `JSON.parse` produced, before sanitisation: the four fields
read by the sanitiser, each an arbitrary JSON value (absent fields are
`jnull`... absent reads are `undefined` in JS; both coerce to the fallback
in every branch below, so `jnull` stands for both). -/
structure RawAnalysis where
  sentiment : JVal
  category : JVal
  priority : JVal
  themes : JVal

structure FeedbackAnalysis where
  sentiment : Sentiment
  category : Category
  priority : Int
  themes : List String
deriving DecidableEq, Repr

/-- The safe default returned when anything in the AI path fails. -/
def defaultAnalysis : FeedbackAnalysis :=
  ⟨Sentiment.neutral, Category.complaint, 3, []⟩

/-- `['positive','negative','neutral'].includes(x) ? x : 'neutral'`. -/
def sanitizeSentiment : JVal → Sentiment
  | JVal.jstr "positive" => Sentiment.positive
  | JVal.jstr "negative" => Sentiment.negative
  | JVal.jstr "neutral" => Sentiment.neutral
  | _ => Sentiment.neutral

/-- `['bug','feature','praise','complaint'].includes(x) ? x : 'complaint'`. -/
def sanitizeCategory : JVal → Category
  | JVal.jstr "bug" => Category.bug
  | JVal.jstr "feature" => Category.feature
  | JVal.jstr "praise" => Category.praise
  | JVal.jstr "complaint" => Category.complaint
  | _ => Category.complaint

/-- `Math.min(5, Math.max(1, Math.round(analysis.priority) || 3))`:
`Math.round(NaN)` is `NaN`, and both `NaN` and a rounding of `±0` are falsy,
so they fall through to 3 before clamping. -/
def sanitizePriority (v : JVal) : Int :=
  match toNumber v with
  | none => min 5 (max 1 3)
  | some q => if round q = 0 then min 5 (max 1 3) else min 5 (max 1 (round q))

/-- `Array.isArray(themes) ? themes.slice(0,5).map(t =>
String(t).toLowerCase().trim()) : []`. -/
def sanitizeThemes : JVal → List String
  | JVal.jarr l => (l.take 5).map (fun v => normTheme (jsToString v))
  | _ => []

/-- The validate-and-sanitise block of `analyzeFeedback` (lines 85–96). -/
def sanitizeAnalysis (raw : RawAnalysis) : FeedbackAnalysis :=
  ⟨sanitizeSentiment raw.sentiment, sanitizeCategory raw.category,
    sanitizePriority raw.priority, sanitizeThemes raw.themes⟩

/-- Index of the first `{` of a character list, if any. -/
def firstBraceIdx (l : List Char) : Option Nat :=
  l.findIdx? (fun c => c = '{')

/-- Index of the last `}` of a character list, if any. -/
def lastCloseIdx (l : List Char) : Option Nat :=
  (l.reverse.findIdx? (fun c => c = '}')).map (fun j => l.length - 1 - j)

/-- `text.match(/\{[\s\S]*\}/)`: the greedy regex matches from the first `{`
to the last `}` of the whole text, provided that `}` lies strictly after the
 `{`; otherwise there is no match. -/
def jsonSpan (text : String) : Option String :=
  match firstBraceIdx text.data, lastCloseIdx text.data with
  | some i, some j => if i < j then some ⟨(text.data.drop i).take (j - i + 1)⟩ else none
  | _, _ => none

/-- `analyzeFeedback`'s result as a function of the AI call's outcome and of
`JSON.parse` (passed in as `parse`; `none` models a parse exception).
`resp = none` models the AI call itself throwing.  Every failure lands in
the `catch` that returns `defaultAnalysis`. -/
def analyzeFeedback (parse : String → Option RawAnalysis) (resp : Option String) :
    FeedbackAnalysis :=
  match resp with
  | none => defaultAnalysis
  | some text =>
    match jsonSpan text with
    | none => defaultAnalysis
    | some s =>
      match parse s with
      | none => defaultAnalysis
      | some raw => sanitizeAnalysis raw

/-! ### Query service (`handleGetFeedback`) -/

/-- The optional conjunctive filters of `GET /api/feedback`.  The date-range
parameter is modelled by the lower bound it is mapped to (`none` when absent
or unrecognised). -/
structure Filters where
  source : Option Source
  sentiment : Option Sentiment
  category : Option Category
  priority : Option Int
  dateFrom : Option Nat
deriving DecidableEq, Repr

/-- The WHERE clause built once and shared by the count query and the data
query (lines 183–223). -/
def matchesFilter (f : Filters) (r : Row) : Bool :=
  (match f.source with | none => true | some s => r.source = s) &&
  (match f.sentiment with | none => true | some s => r.sentiment = s) &&
  (match f.category with | none => true | some c => r.category = c) &&
  (match f.priority with | none => true | some p => r.priority = p) &&
  (match f.dateFrom with | none => true | some d => d ≤ r.created_at)

/-- `SELECT COUNT(*) FROM feedback WHERE ...` (lines 226–231). -/
def countTotal (f : Filters) (db : List Row) : Nat :=
  (db.filter (matchesFilter f)).length

/-- `SELECT * FROM feedback WHERE ... ORDER BY created_at DESC` before
pagination: the filtered rows, sorted newest first (deterministically:
stable). -/
def sortedFiltered (f : Filters) (db : List Row) : List Row :=
  sortKeyDesc Row.created_at (db.filter (matchesFilter f))

/-- One page of the data query: `LIMIT limit OFFSET (page-1)*limit`
(lines 234–237). -/
def pageSlice (f : Filters) (lim page : Nat) (db : List Row) : List Row :=
  ((sortedFiltered f db).drop ((page - 1) * lim)).take lim

/-- `Math.max(1, parseInt(page || '1'))` on a present-and-numeric or absent
parameter. -/
def effPage (p : Option Int) : Int :=
  max 1 (p.getD 1)

/-- `Math.min(100, Math.max(1, parseInt(limit || '10')))`. -/
def effLimit (l : Option Int) : Int :=
  min 100 (max 1 (l.getD 10))

/-- `Math.ceil(total / limit)`. -/
def totalPages (total lim : Nat) : Nat :=
  (total + lim - 1) / lim

/-- The pagination metadata of the response (lines 245–257). -/
structure PageMeta where
  page : Int
  limit : Int
  total : Nat
  totalPages : Int
  hasNext : Bool
  hasPrev : Bool
deriving DecidableEq, Repr

/-- The pagination object returned by `handleGetFeedback`, as a function of
the (parsed) `page`/`limit` parameters and of the count query's result. -/
def paginationMeta (pp lp : Option Int) (total : Nat) : PageMeta :=
  let page := effPage pp
  let lim := effLimit lp
  let tp : Int := ⌈(total : ℚ) / (lim : ℚ)⌉
  ⟨page, lim, total, tp, decide (page < tp), decide (1 < page)⟩

/-- `const offset = (page - 1) * limit` (line 180). -/
def offsetOf (pp lp : Option Int) : Int :=
  (effPage pp - 1) * effLimit lp

/-! ### Spec-side definitions for the sentiment trend

These follow the specification's wording (recent half = first half, or the
single record if only one exists; ratio = (positives − negatives) / size, 0
for the empty half; thresholds ±0.1), to be compared with `sentimentTrend`
from the source. -/

/-- Spec wording: the first half, or the single record if only one exists. -/
def specRecentHalf (l : List Row) : List Row :=
  if l.length ≤ 1 then l else l.take (l.length / 2)

/-- Spec wording: the older half is the remainder. -/
def specOlderHalf (l : List Row) : List Row :=
  l.drop (specRecentHalf l).length

/-- Spec wording: `positiveRatio = (countPositive − countNegative) / size`,
0 if the half is empty. -/
def specRatio (h : List Row) : ℚ :=
  if h = [] then 0
  else ((countSent Sentiment.positive h : ℚ) - (countSent Sentiment.negative h : ℚ))
        / (h.length : ℚ)

/-- Spec wording: `diff = recentRatio − olderRatio`. -/
def specDiff (l : List Row) : ℚ :=
  specRatio (specRecentHalf l) - specRatio (specOlderHalf l)

/-- Spec wording: `diff > 0.1` → improving; `diff < -0.1` → declining;
otherwise stable. -/
def specTrendTag (l : List Row) : TrendTag :=
  if specDiff l > 1/10 then TrendTag.improving
  else if specDiff l < -(1/10) then TrendTag.declining
  else TrendTag.stable

/-! ### Concrete inputs used by witnesses and counterexamples -/

/-- Four records, newest first: positive, positive, negative, negative. -/
def fourTrendRows : List Row :=
  [⟨4, Source.twitter, Sentiment.positive, Category.praise, 3, some [], 4⟩,
   ⟨3, Source.discord, Sentiment.positive, Category.praise, 3, some [], 3⟩,
   ⟨2, Source.github, Sentiment.negative, Category.bug, 3, some [], 2⟩,
   ⟨1, Source.support, Sentiment.negative, Category.bug, 3, some [], 1⟩]

/-- Two negative records carrying themes `a` (priority 5) and `b`
(priority 4). -/
def twoNegRows : List Row :=
  [⟨2, Source.github, Sentiment.negative, Category.bug, 5, some ["a"], 2⟩,
   ⟨1, Source.support, Sentiment.negative, Category.bug, 4, some ["b"], 1⟩]

/-- One record whose themes flatten to counts `a ↦ 2`, `b ↦ 1`. -/
def oneThemeRow : List Row :=
  [⟨1, Source.twitter, Sentiment.neutral, Category.bug, 3, some ["a", "a", "b"], 0⟩]

/-- One record whose theme list repeats `b`. -/
def dupThemeRow : List Row :=
  [⟨1, Source.twitter, Sentiment.negative, Category.bug, 3, some ["b", "b"], 0⟩]

/-- A parsed classifier object whose `priority` is the JSON number 0. -/
def rawPriorityZero : RawAnalysis :=
  ⟨JVal.jstr "positive", JVal.jstr "bug", JVal.jnum 0, JVal.jarr []⟩

/-- A parsed classifier object whose `priority` is the JSON number 9. -/
def rawPriorityNine : RawAnalysis :=
  ⟨JVal.jstr "positive", JVal.jstr "bug", JVal.jnum 9, JVal.jarr []⟩

/-- A parsed classifier object whose themes hold a whitespace-only string. -/
def rawBlankTheme : RawAnalysis :=
  ⟨JVal.jstr "positive", JVal.jstr "bug", JVal.jnum 2, JVal.jarr [JVal.jstr "  "]⟩

/-- The empty filter combination. -/
def noFilters : Filters :=
  ⟨none, none, none, none, none⟩

/-- A three-row store sample. -/
def threeRowDb : List Row :=
  [⟨1, Source.twitter, Sentiment.positive, Category.praise, 2, some ["ui"], 10⟩,
   ⟨2, Source.discord, Sentiment.negative, Category.bug, 5, some ["api"], 30⟩,
   ⟨3, Source.github, Sentiment.neutral, Category.feature, 3, some ["docs"], 20⟩]

/-! ## Lemmas about the string model -/

theorem head?_dropWhile {p : Char → Bool} {l : List Char} {c : Char}
    (h : (l.dropWhile p).head? = some c) : p c = false := by
  induction l with
  | nil => simp at h
  | cons a rest ih =>
    rw [List.dropWhile_cons] at h
    by_cases ha : p a
    · exact ih (by simpa [ha] using h)
    · rw [if_neg ha] at h
      simp only [List.head?_cons, Option.some.injEq] at h
      subst h
      simpa using ha

theorem dropWhile_of_head? {p : Char → Bool} {l : List Char}
    (h : ∀ c, l.head? = some c → p c = false) : l.dropWhile p = l := by
  cases l with
  | nil => rfl
  | cons a rest =>
    rw [List.dropWhile_cons]
    simp [h a rfl]

theorem dropWhile_idem (p : Char → Bool) (l : List Char) :
    (l.dropWhile p).dropWhile p = l.dropWhile p :=
  dropWhile_of_head? (fun _ hc => head?_dropWhile hc)

theorem getLast?_dropWhile {p : Char → Bool} {l : List Char}
    (h : l.dropWhile p ≠ []) : (l.dropWhile p).getLast? = l.getLast? := by
  induction l with
  | nil => simp at h
  | cons a rest ih =>
    rw [List.dropWhile_cons] at h ⊢
    by_cases ha : p a
    · simp only [ha, if_true] at h ⊢
      have hrest : rest ≠ [] := by
        intro he; subst he; simp at h
      rw [ih h]
      cases rest with
      | nil => exact absurd rfl hrest
      | cons b t => exact (List.getLast?_cons_cons).symm
    · simp [ha]

theorem jsTrimList_idem (l : List Char) :
    jsTrimList (jsTrimList l) = jsTrimList l := by
  unfold jsTrimList
  set A := l.dropWhile isWS with hA
  set B := A.reverse.dropWhile isWS with hB
  by_cases hBnil : B = []
  · simp [hBnil]
  · have hdropRev : B.reverse.dropWhile isWS = B.reverse := by
      apply dropWhile_of_head?
      intro c hc
      rw [List.head?_reverse] at hc
      rw [hB, getLast?_dropWhile (hB ▸ hBnil), List.getLast?_reverse] at hc
      exact head?_dropWhile (hA ▸ hc)
    rw [hdropRev, List.reverse_reverse, hB, dropWhile_idem]

theorem mem_jsTrimList {l : List Char} {c : Char} (h : c ∈ jsTrimList l) : c ∈ l := by
  unfold jsTrimList at h
  rw [List.mem_reverse] at h
  have h2 := (List.dropWhile_sublist isWS).subset h
  rw [List.mem_reverse] at h2
  exact (List.dropWhile_sublist isWS).subset h2

theorem toNat_ofNat_shift {n : Nat} (h1 : 65 ≤ n) (h2 : n ≤ 90) :
    (Char.ofNat (n + 32)).toNat = n + 32 := by
  interval_cases n <;> decide

theorem lowerChar_not_upper (c : Char) :
    ¬(65 ≤ (lowerChar c).toNat ∧ (lowerChar c).toNat ≤ 90) := by
  unfold lowerChar
  by_cases h : 65 ≤ c.toNat ∧ c.toNat ≤ 90
  · rw [if_pos h, toNat_ofNat_shift h.1 h.2]
    omega
  · rw [if_neg h]
    exact h

theorem lowerChar_idem (c : Char) : lowerChar (lowerChar c) = lowerChar c := by
  conv_lhs => rw [lowerChar]
  rw [if_neg (lowerChar_not_upper c)]

theorem map_fix {f : Char → Char} {l : List Char} (h : ∀ c ∈ l, f c = c) :
    l.map f = l := by
  induction l with
  | nil => rfl
  | cons c rest ih =>
    simp only [List.map_cons, h c (by simp)]
    rw [ih (fun x hx => h x (by simp [hx]))]

theorem lowerTrimLower_fix (d : List Char) :
    jsToLowerList (jsTrimList (jsToLowerList d)) = jsTrimList (jsToLowerList d) := by
  unfold jsToLowerList
  apply map_fix
  intro c hc
  have hmem : c ∈ List.map lowerChar d := mem_jsTrimList hc
  obtain ⟨a, _, ha⟩ := List.mem_map.mp hmem
  rw [← ha, lowerChar_idem]

theorem normTheme_trim_fix (s : String) : jsTrim (normTheme s) = normTheme s :=
  congrArg String.mk (jsTrimList_idem ((jsToLower s).data))

theorem normTheme_lower_fix (s : String) : jsToLower (normTheme s) = normTheme s :=
  congrArg String.mk (lowerTrimLower_fix s.data)

/-! ## Lemmas about the stable descending sort -/

theorem insertKeyDesc_perm (key : α → Nat) (x : α) (l : List α) :
    (insertKeyDesc key x l).Perm (x :: l) := by
  induction l with
  | nil => exact List.Perm.refl _
  | cons y ys ih =>
    unfold insertKeyDesc
    by_cases h : key y ≤ key x
    · rw [if_pos h]
    · rw [if_neg h]
      exact (ih.cons y).trans (List.Perm.swap x y ys)

theorem sortKeyDesc_perm (key : α → Nat) (l : List α) :
    (sortKeyDesc key l).Perm l := by
  induction l with
  | nil => exact List.Perm.refl _
  | cons x xs ih =>
    show (insertKeyDesc key x (sortKeyDesc key xs)).Perm (x :: xs)
    exact (insertKeyDesc_perm key x _).trans (ih.cons x)

theorem mem_insertKeyDesc {key : α → Nat} {x z : α} {l : List α}
    (h : z ∈ insertKeyDesc key x l) : z = x ∨ z ∈ l := by
  have := (insertKeyDesc_perm key x l).subset h
  simpa using this

theorem insertKeyDesc_sorted (key : α → Nat) (x : α) {l : List α}
    (h : l.Pairwise (fun a b => key b ≤ key a)) :
    (insertKeyDesc key x l).Pairwise (fun a b => key b ≤ key a) := by
  induction l with
  | nil => simp [insertKeyDesc]
  | cons y ys ih =>
    rw [List.pairwise_cons] at h
    unfold insertKeyDesc
    by_cases hxy : key y ≤ key x
    · rw [if_pos hxy]
      refine List.Pairwise.cons ?_ (List.Pairwise.cons h.1 h.2)
      intro z hz
      rcases List.mem_cons.mp hz with hz | hz
      · subst hz; exact hxy
      · exact le_trans (h.1 z hz) hxy
    · rw [if_neg hxy]
      refine List.Pairwise.cons ?_ (ih h.2)
      intro z hz
      rcases mem_insertKeyDesc hz with hz | hz
      · subst hz; exact le_of_not_le hxy
      · exact h.1 z hz

theorem sortKeyDesc_sorted (key : α → Nat) (l : List α) :
    (sortKeyDesc key l).Pairwise (fun a b => key b ≤ key a) := by
  induction l with
  | nil => simp [sortKeyDesc]
  | cons x xs ih => exact insertKeyDesc_sorted key x ih

theorem filter_insertKeyDesc_eq {key : α → Nat} {x : α} {c : Nat} (l : List α)
    (hx : key x = c) :
    (insertKeyDesc key x l).filter (fun a => key a == c)
      = x :: l.filter (fun a => key a == c) := by
  induction l with
  | nil => simp [insertKeyDesc, hx]
  | cons y ys ih =>
    unfold insertKeyDesc
    by_cases hxy : key y ≤ key x
    · rw [if_pos hxy, List.filter_cons, if_pos (by simp [hx])]
    · rw [if_neg hxy]
      have hy : (key y == c) = false := by
        simp only [beq_eq_false_iff_ne, ne_eq]
        omega
      rw [List.filter_cons, hy, List.filter_cons, hy]
      simpa using ih

theorem filter_insertKeyDesc_ne {key : α → Nat} {x : α} {c : Nat} (l : List α)
    (hx : key x ≠ c) :
    (insertKeyDesc key x l).filter (fun a => key a == c)
      = l.filter (fun a => key a == c) := by
  induction l with
  | nil => simp [insertKeyDesc, hx]
  | cons y ys ih =>
    unfold insertKeyDesc
    by_cases hxy : key y ≤ key x
    · rw [if_pos hxy, List.filter_cons, if_neg (by simpa using hx)]
    · rw [if_neg hxy, List.filter_cons, List.filter_cons]
      by_cases hy : (key y == c) = true
      · rw [if_pos hy, if_pos hy, ih]
      · rw [if_neg hy, if_neg hy, ih]

/-- Stability of the sort: within one count value, the sorted list keeps the
input's order. -/
theorem sortKeyDesc_stable (key : α → Nat) (l : List α) (c : Nat) :
    (sortKeyDesc key l).filter (fun a => key a == c)
      = l.filter (fun a => key a == c) := by
  induction l with
  | nil => rfl
  | cons x xs ih =>
    show ((insertKeyDesc key x (sortKeyDesc key xs)).filter _) = _
    by_cases hx : key x = c
    · rw [filter_insertKeyDesc_eq _ hx, ih, List.filter_cons, if_pos (by simp [hx])]
    · rw [filter_insertKeyDesc_ne _ hx, ih, List.filter_cons, if_neg (by simpa using hx)]

/-! ## The theme-count object lists themes in first-encounter order -/

theorem bump_map_fst (acc : List (String × Nat)) (t : String) :
    (bump acc t).map Prod.fst = dedupStep (acc.map Prod.fst) t := by
  induction acc with
  | nil => simp [bump, dedupStep]
  | cons e rest ih =>
    obtain ⟨k, c⟩ := e
    unfold bump dedupStep
    by_cases hk : k = t
    · rw [if_pos hk]
      simp [dedupStep, hk]
    · rw [if_neg hk]
      simp only [List.map_cons, ih, dedupStep, List.mem_cons]
      by_cases hm : t ∈ rest.map Prod.fst
      · simp [hm, hk]
      · simp [hm, hk, Ne.symm hk]

theorem foldl_bump_map_fst (ts : List String) (acc : List (String × Nat)) :
    (ts.foldl bump acc).map Prod.fst = ts.foldl dedupStep (acc.map Prod.fst) := by
  induction ts generalizing acc with
  | nil => rfl
  | cons t ts ih => rw [List.foldl_cons, List.foldl_cons, ih, bump_map_fst]

/-- The keys of the theme-count object are the scanned theme occurrences in
first-encounter order. -/
theorem themeEntries_fst (recs : List Row) :
    (themeEntries recs).map Prod.fst = firstDedup (occList recs) := by
  have main : ∀ (rs : List Row) (acc : List (String × Nat)),
      (rs.foldl addRowThemes acc).map Prod.fst
        = ((rs.map rowThemes).flatten).foldl dedupStep (acc.map Prod.fst) := by
    intro rs
    induction rs with
    | nil => intro acc; rfl
    | cons r rest ih =>
      intro acc
      rw [List.foldl_cons, ih, List.map_cons, List.flatten_cons, List.foldl_append]
      rw [addRowThemes, foldl_bump_map_fst]
  exact main recs []

/-! ## Theme counts equal occurrence counts -/

theorem countOf_nil (t : String) : countOf t [] = 0 := rfl

theorem countOf_cons (t k : String) (c : Nat) (xs : List (String × Nat)) :
    countOf t ((k, c) :: xs) = if k = t then c else countOf t xs := by
  unfold countOf
  by_cases hk : k = t
  · rw [if_pos hk, List.find?_cons_of_pos _ (by simpa using hk)]
    rfl
  · rw [if_neg hk, List.find?_cons_of_neg _ (by simpa using hk)]

theorem countOf_bump (acc : List (String × Nat)) (s t : String) :
    countOf t (bump acc s) = countOf t acc + (if s = t then 1 else 0) := by
  induction acc with
  | nil =>
    rw [bump, countOf_cons, countOf_nil]
    by_cases hs : s = t <;> simp [hs]
  | cons e rest ih =>
    obtain ⟨k, c⟩ := e
    simp only [bump]
    by_cases hk : k = s
    · subst hk
      rw [if_pos rfl, countOf_cons, countOf_cons]
      by_cases hkt : k = t
      · rw [if_pos hkt, if_pos hkt, if_pos hkt]
      · rw [if_neg hkt, if_neg hkt, if_neg hkt]
        omega
    · rw [if_neg hk, countOf_cons, countOf_cons]
      by_cases hkt : k = t
      · subst hkt
        rw [if_pos rfl, if_pos rfl, if_neg (fun hc : s = k => hk hc.symm)]
        omega
      · rw [if_neg hkt, if_neg hkt, ih]

theorem countOf_foldl_bump (ts : List String) (acc : List (String × Nat)) (t : String) :
    countOf t (ts.foldl bump acc) = countOf t acc + ts.count t := by
  induction ts generalizing acc with
  | nil => simp
  | cons s ts ih =>
    rw [List.foldl_cons, ih, countOf_bump, List.count_cons]
    have : (s == t) = decide (s = t) := by rfl
    by_cases hs : s = t <;> simp [hs] <;> omega

theorem countOf_themeEntries (recs : List Row) (t : String) :
    countOf t (themeEntries recs) = (occList recs).count t := by
  have main : ∀ (rs : List Row) (acc : List (String × Nat)),
      countOf t (rs.foldl addRowThemes acc)
        = countOf t acc + ((rs.map rowThemes).flatten).count t := by
    intro rs
    induction rs with
    | nil => intro acc; simp
    | cons r rest ih =>
      intro acc
      rw [List.foldl_cons, ih, List.map_cons, List.flatten_cons, List.count_append]
      rw [addRowThemes, countOf_foldl_bump]
      omega
  have h := main recs []
  rw [themeEntries, occList, h, countOf_nil, Nat.zero_add]

/-! ## The most-urgent-issue selection loop -/

theorem bumpPr_bounds (t : String) (p : Int) (hp : 1 ≤ p) :
    ∀ (acc : List (String × Int × Nat)),
      (∀ e ∈ acc, 1 ≤ e.2.2 ∧ (e.2.2 : Int) ≤ e.2.1) →
      ∀ e ∈ bumpPr acc t p, 1 ≤ e.2.2 ∧ (e.2.2 : Int) ≤ e.2.1 := by
  intro acc
  induction acc with
  | nil =>
    intro _ e he
    simp only [bumpPr, List.mem_singleton] at he
    subst he
    exact ⟨le_refl 1, by simpa using hp⟩
  | cons x rest ih =>
    obtain ⟨k, tot, c⟩ := x
    intro hacc e he
    simp only [bumpPr] at he
    by_cases hk : k = t
    · rw [if_pos hk] at he
      rcases List.mem_cons.mp he with rfl | hmem
      · obtain ⟨h1, h2⟩ := hacc (k, tot, c) (List.mem_cons_self _ _)
        constructor
        · exact Nat.le_succ_of_le h1
        · push_cast
          push_cast at h2
          omega
      · exact hacc _ (List.mem_cons_of_mem _ hmem)
    · rw [if_neg hk] at he
      rcases List.mem_cons.mp he with rfl | hmem
      · exact hacc _ (List.mem_cons_self _ _)
      · exact ih (fun f hf => hacc f (List.mem_cons_of_mem _ hf)) e hmem

theorem foldlPr_bounds (ts : List String) (p : Int) (hp : 1 ≤ p) :
    ∀ (acc : List (String × Int × Nat)),
      (∀ e ∈ acc, 1 ≤ e.2.2 ∧ (e.2.2 : Int) ≤ e.2.1) →
      ∀ e ∈ ts.foldl (fun a t => bumpPr a t p) acc, 1 ≤ e.2.2 ∧ (e.2.2 : Int) ≤ e.2.1 := by
  induction ts with
  | nil => intro acc hacc; exact hacc
  | cons t ts ih =>
    intro acc hacc
    rw [List.foldl_cons]
    exact ih _ (bumpPr_bounds t p hp acc hacc)

theorem negThemeEntries_bounds (recs : List Row) (hpr : ∀ r ∈ recs, 1 ≤ r.priority) :
    ∀ e ∈ negThemeEntries recs, 1 ≤ e.2.2 ∧ (e.2.2 : Int) ≤ e.2.1 := by
  have main : ∀ (rs : List Row), (∀ r ∈ rs, 1 ≤ r.priority) →
      ∀ (acc : List (String × Int × Nat)),
        (∀ e ∈ acc, 1 ≤ e.2.2 ∧ (e.2.2 : Int) ≤ e.2.1) →
        ∀ e ∈ rs.foldl
            (fun acc r =>
              if r.sentiment = Sentiment.negative then
                (rowThemes r).foldl (fun a t => bumpPr a t r.priority) acc
              else acc) acc,
          1 ≤ e.2.2 ∧ (e.2.2 : Int) ≤ e.2.1 := by
    intro rs
    induction rs with
    | nil => intro _ acc hacc; exact hacc
    | cons r rest ih =>
      intro hrs acc hacc
      rw [List.foldl_cons]
      refine ih (fun x hx => hrs x (List.mem_cons_of_mem _ hx)) _ ?_
      by_cases hneg : r.sentiment = Sentiment.negative
      · rw [if_pos hneg]
        exact foldlPr_bounds _ _ (hrs r (List.mem_cons_self _ _)) acc hacc
      · rw [if_neg hneg]
        exact hacc
  exact main recs hpr [] (by simp)

theorem ustate_step (seen : List (String × Int × Nat)) (b : ℚ × Option UrgentIssue)
    (e : String × Int × Nat) (h : UState seen b) :
    UState (seen ++ [e]) (urgentStep b e) := by
  unfold urgentStep
  by_cases hc : entryAvg e > b.1 ∨
      (entryAvg e = b.1 ∧ e.2.2 > ((b.2.map UrgentIssue.count).getD 0))
  · rw [if_pos hc]
    right
    refine ⟨e, List.mem_append_right _ (List.mem_singleton_self e), rfl, rfl, ?_⟩
    intro f hf
    rcases List.mem_append.mp hf with hf | hf
    · rcases h with ⟨hb, hall⟩ | ⟨g, hg, hb1, hb2, hmax⟩
      · have hb1 : b.1 = 0 := by rw [hb]
        have hb2 : b.2 = none := by rw [hb]
        rcases hc with hgt | ⟨heq, hcnt⟩
        · rw [hb1] at hgt
          rcases hall f hf with h1 | ⟨h1, _⟩
          · exact Or.inl (lt_trans h1 hgt)
          · exact Or.inl (h1 ▸ hgt)
        · rw [hb1] at heq
          rcases hall f hf with h1 | ⟨h1, h2⟩
          · exact Or.inl (heq ▸ h1)
          · exact Or.inr ⟨by rw [h1, heq], by omega⟩
      · have hbc : ((b.2.map UrgentIssue.count).getD 0) = g.2.2 := by rw [hb2]; rfl
        rcases hc with hgt | ⟨heq, hcnt⟩
        · rw [hb1] at hgt
          rcases hmax f hf with h1 | ⟨h1, _⟩
          · exact Or.inl (lt_trans h1 hgt)
          · exact Or.inl (h1 ▸ hgt)
        · rw [hb1] at heq
          rw [hbc] at hcnt
          rcases hmax f hf with h1 | ⟨h1, h2⟩
          · exact Or.inl (heq ▸ h1)
          · exact Or.inr ⟨by rw [h1, heq], by omega⟩
    · rw [List.mem_singleton.mp hf]
      exact Or.inr ⟨rfl, le_refl _⟩
  · rw [if_neg hc]
    push_neg at hc
    obtain ⟨hle, himp⟩ := hc
    rcases h with ⟨hb, hall⟩ | ⟨g, hg, hb1, hb2, hmax⟩
    · left
      refine ⟨hb, ?_⟩
      intro f hf
      rcases List.mem_append.mp hf with hf | hf
      · exact hall f hf
      · rw [List.mem_singleton.mp hf]
        have hb1 : b.1 = 0 := by rw [hb]
        have hb2 : b.2 = none := by rw [hb]
        rw [hb1] at hle himp
        rcases lt_or_eq_of_le hle with h1 | h1
        · exact Or.inl h1
        · refine Or.inr ⟨h1, ?_⟩
          have := himp h1
          rw [hb2] at this
          simpa using this
    · right
      refine ⟨g, List.mem_append_left _ hg, hb1, hb2, ?_⟩
      intro f hf
      rcases List.mem_append.mp hf with hf | hf
      · exact hmax f hf
      · rw [List.mem_singleton.mp hf]
        rw [hb1] at hle himp
        rcases lt_or_eq_of_le hle with h1 | h1
        · exact Or.inl h1
        · refine Or.inr ⟨h1, ?_⟩
          have := himp h1
          rw [hb2] at this
          simpa using this

theorem ustate_foldl (es : List (String × Int × Nat)) :
    ∀ (seen : List (String × Int × Nat)) (b : ℚ × Option UrgentIssue),
      UState seen b → UState (seen ++ es) (es.foldl urgentStep b) := by
  induction es with
  | nil => intro seen b h; simpa using h
  | cons e es ih =>
    intro seen b h
    rw [List.foldl_cons]
    have := ih (seen ++ [e]) (urgentStep b e) (ustate_step _ _ _ h)
    simpa [List.append_assoc] using this

/-! ## Pagination arithmetic -/

theorem chunks_join {α : Type} (k : Nat) (hk : 0 < k) :
    ∀ (n : Nat) (l : List α), l.length ≤ n * k →
      (List.range n).flatMap (fun i => (l.drop (i * k)).take k) = l := by
  intro n
  induction n with
  | zero =>
    intro l h
    have hl : l = [] := List.length_eq_zero.mp (Nat.le_zero.mp (by simpa using h))
    simp [hl]
  | succ n ih =>
    intro l h
    rw [List.range_succ_eq_map, List.flatMap_cons, List.flatMap_map]
    have hstep : ∀ i : Nat, ((l.drop (Nat.succ i * k)).take k)
        = (((l.drop k).drop (i * k)).take k) := by
      intro i
      rw [List.drop_drop]
      congr 2
      rw [Nat.succ_mul]
      omega
    calc (l.drop (0 * k)).take k
          ++ (List.range n).flatMap (fun i => (l.drop (Nat.succ i * k)).take k)
        = l.take k
          ++ (List.range n).flatMap (fun i => ((l.drop k).drop (i * k)).take k) := by
          rw [Nat.zero_mul, List.drop_zero]
          simp only [hstep]
      _ = l.take k ++ l.drop k := by
          rw [ih (l.drop k) (by rw [List.length_drop]; rw [Nat.succ_mul] at h; omega)]
      _ = l := List.take_append_drop k l

theorem le_totalPages_mul (total lim : Nat) (hl : 0 < lim) :
    total ≤ totalPages total lim * lim := by
  unfold totalPages
  have h1 := Nat.div_add_mod (total + lim - 1) lim
  have h2 := Nat.mod_lt (total + lim - 1) hl
  rw [Nat.mul_comm] at h1
  generalize hM : (total + lim - 1) / lim * lim = M at h1 ⊢
  omega

theorem page_full_bound (total lim i : Nat) (hl : 0 < lim)
    (hi : i + 1 < totalPages total lim) : (i + 1) * lim ≤ total := by
  unfold totalPages at hi
  have h1 := Nat.div_add_mod (total + lim - 1) lim
  have h2 := Nat.mod_lt (total + lim - 1) hl
  have h3 : (i + 1) * lim ≤ ((total + lim - 1) / lim - 1) * lim :=
    Nat.mul_le_mul_right lim (by omega)
  rw [Nat.sub_mul, Nat.one_mul] at h3
  rw [Nat.mul_comm] at h1
  generalize hM : (total + lim - 1) / lim * lim = M at h1 h3
  generalize hN : (i + 1) * lim = N at h3 ⊢
  omega

theorem totalPages_eq_ceil (total lim : Nat) (hl : 0 < lim) :
    (totalPages total lim : ℤ) = ⌈(total : ℚ) / (lim : ℚ)⌉ := by
  have hlQ : (0 : ℚ) < (lim : ℚ) := by exact_mod_cast hl
  symm
  rw [Int.ceil_eq_iff]
  constructor
  · rw [lt_div_iff hlQ]
    have hub : totalPages total lim * lim ≤ total + (lim - 1) := by
      unfold totalPages
      have := Nat.div_mul_le_self (total + lim - 1) lim
      omega
    have hcast : ((totalPages total lim : ℚ)) * (lim : ℚ)
        ≤ (total : ℚ) + ((lim : ℚ) - 1) := by
      have h1 : ((totalPages total lim * lim : ℕ) : ℚ)
          ≤ ((total + (lim - 1) : ℕ) : ℚ) := by exact_mod_cast hub
      push_cast [Nat.cast_sub hl] at h1
      convert h1 using 2
    push_cast
    nlinarith [hcast]
  · rw [div_le_iff hlQ]
    have h2 := le_totalPages_mul total lim hl
    push_cast
    exact_mod_cast h2

/-! ## Claim theorems -/

/-- C3: for every record set, `topThemes` has length at most 5 and is sorted
by theme count descending; it is the 5-element prefix of a stable descending
sort of the count object's entries, so ties between equal counts keep the
entries' order, which is the first-encounter order of the themes over the
scan of the record set. -/
theorem C3_topThemes_top5_sorted_stable (recs : List Row) :
    (topThemes recs).length ≤ 5 ∧
    (topThemes recs).Pairwise (fun a b => b.2 ≤ a.2) ∧
    topThemes recs = (sortKeyDesc (fun e => e.2) (themeEntries recs)).take 5 ∧
    (sortKeyDesc (fun e => e.2) (themeEntries recs)).Perm (themeEntries recs) ∧
    (∀ c : Nat, (sortKeyDesc (fun e => e.2) (themeEntries recs)).filter
        (fun e => e.2 == c) = (themeEntries recs).filter (fun e => e.2 == c)) ∧
    (themeEntries recs).map Prod.fst = firstDedup (occList recs) := by
  refine ⟨?_, ?_, rfl, sortKeyDesc_perm _ _, fun c => sortKeyDesc_stable _ _ c,
    themeEntries_fst recs⟩
  · exact List.length_take_le 5 _
  · exact List.Pairwise.sublist (List.take_sublist 5 _) (sortKeyDesc_sorted _ _)

/-- C7: with at least one theme mention, `themeDistribution` lists at most 5
entries, sorted by count descending, and every listed entry's percentage is
`round(100 * count / totalMentions)` with `totalMentions` the sum over all
themes. -/
theorem C7_themeDistribution_percentages (recs : List Row)
    (h : 0 < totalMentions recs) :
    (themeDistribution recs).length ≤ 5 ∧
    (themeDistribution recs).Pairwise (fun a b => b.count ≤ a.count) ∧
    ∀ e ∈ themeDistribution recs,
      e.percentage = round ((100 * (e.count : ℚ)) / (totalMentions recs : ℚ)) := by
  refine ⟨?_, ?_, ?_⟩
  · rw [themeDistribution, List.length_map]
    exact List.length_take_le 5 _
  · rw [themeDistribution, List.pairwise_map]
    exact List.Pairwise.sublist (List.take_sublist 5 _) (sortKeyDesc_sorted _ _)
  · intro e he
    unfold themeDistribution at he
    obtain ⟨p, _, hpe⟩ := List.mem_map.mp he
    subst hpe
    show round (((p.2 : ℚ) / (totalMentions recs : ℚ)) * 100) = _
    congr 1
    ring

/-- Witness for C7, which is also the spec's worked example: one record with
themes `["a","a","b"]` gives flattened counts `a ↦ 2`, `b ↦ 1`, total
mentions 3, and percentages 67 and 33. -/
theorem C7_witness :
    0 < totalMentions oneThemeRow ∧
    themeDistribution oneThemeRow = [⟨"a", 2, 67⟩, ⟨"b", 1, 33⟩] ∧
    ((themeDistribution oneThemeRow).length ≤ 5 ∧
      (themeDistribution oneThemeRow).Pairwise (fun a b => b.count ≤ a.count) ∧
      ∀ e ∈ themeDistribution oneThemeRow,
        e.percentage = round ((100 * (e.count : ℚ)) / (totalMentions oneThemeRow : ℚ))) := by
  refine ⟨by decide, ?_, C7_themeDistribution_percentages _ (by decide)⟩
  have h67 : round ((((2 : ℕ) : ℚ) / ((3 : ℕ) : ℚ)) * 100) = 67 := by
    push_cast
    norm_num [round_eq]
  have h33 : round ((((1 : ℕ) : ℚ) / ((3 : ℕ) : ℚ)) * 100) = 33 := by
    push_cast
    norm_num [round_eq]
  rw [show themeDistribution oneThemeRow
      = [⟨"a", 2, round ((((2 : ℕ) : ℚ) / ((3 : ℕ) : ℚ)) * 100)⟩,
         ⟨"b", 1, round ((((1 : ℕ) : ℚ) / ((3 : ℕ) : ℚ)) * 100)⟩] from rfl, h67, h33]

/-- C1: on every non-empty record set (newest first), the sentiment trend
computed by the source agrees with the specification's description: split at
the midpoint (single record stays in the recent half), ratio
`(positives − negatives) / size` per half (0 for an empty half), classify by
the ±0.1 thresholds on the ratio difference, and count
`recentPositive`/`recentNegative` over the recent half only. -/
theorem C1_sentimentTrend_matches_spec (l : List Row) (h : l ≠ []) :
    (sentimentTrend l).trend = specTrendTag l ∧
    (sentimentTrend l).recentPositive = countSent Sentiment.positive (specRecentHalf l) ∧
    (sentimentTrend l).recentNegative = countSent Sentiment.negative (specRecentHalf l) := by
  have hlen : l.length ≠ 0 := fun hc => h (List.length_eq_zero.mp hc)
  have htake : l.take (recentLen l) = specRecentHalf l := by
    unfold recentLen specRecentHalf
    by_cases h2 : l.length / 2 = 0
    · have hle : l.length ≤ 1 := by
        have := (Nat.div_eq_zero_iff (by norm_num : 0 < 2)).mp h2
        omega
      rw [if_pos h2, if_pos hle]
      exact List.take_of_length_le hle
    · have hle : ¬ l.length ≤ 1 := fun hc => h2 (Nat.div_eq_of_lt (by omega))
      rw [if_neg h2, if_neg hle]
  have hrecle : recentLen l ≤ l.length := by
    unfold recentLen
    by_cases h2 : l.length / 2 = 0
    · rw [if_pos h2]; omega
    · rw [if_neg h2]; exact Nat.div_le_self _ _
  have hdrop : l.drop (recentLen l) = specOlderHalf l := by
    unfold specOlderHalf
    rw [← htake, List.length_take, Nat.min_eq_left hrecle]
  have hcalc : ∀ items : List Row, calcPositiveRatio items = specRatio items := by
    intro items
    cases items with
    | nil => simp [calcPositiveRatio, specRatio]
    | cons a t => simp [calcPositiveRatio, specRatio]
  refine ⟨?_, ?_, ?_⟩
  · simp only [sentimentTrend, specTrendTag, specDiff, htake, hdrop, hcalc]
    split_ifs <;> rfl
  · simp only [sentimentTrend, htake, hdrop, hcalc]
    split_ifs <;> rfl
  · simp only [sentimentTrend, htake, hdrop, hcalc]
    split_ifs <;> rfl

/-- Witness for C1, which is also the spec's worked example: 4 records
newest first, `[positive, positive, negative, negative]`, classify as
improving. -/
theorem C1_witness :
    fourTrendRows ≠ [] ∧ (sentimentTrend fourTrendRows).trend = TrendTag.improving := by
  refine ⟨by decide, ?_⟩
  have hd : specDiff fourTrendRows = 2 := by
    rw [specDiff, specRatio, specRatio, if_neg (by decide), if_neg (by decide)]
    norm_num [show countSent Sentiment.positive (specRecentHalf fourTrendRows) = 2 from by decide,
      show countSent Sentiment.negative (specRecentHalf fourTrendRows) = 0 from by decide,
      show countSent Sentiment.positive (specOlderHalf fourTrendRows) = 0 from by decide,
      show countSent Sentiment.negative (specOlderHalf fourTrendRows) = 2 from by decide,
      show (specRecentHalf fourTrendRows).length = 2 from by decide,
      show (specOlderHalf fourTrendRows).length = 2 from by decide]
  rw [(C1_sentimentTrend_matches_spec fourTrendRows (by decide)).1, specTrendTag, hd,
    if_pos (by norm_num)]

/-- C5: whenever the AI call fails, or its response text has no `{...}`
span, or JSON parsing of that span fails, `analyzeFeedback` propagates no
error and returns exactly the default analysis
`{sentiment: neutral, category: complaint, priority: 3, themes: []}`. -/
theorem C5_failures_return_default (parse : String → Option RawAnalysis)
    (resp : Option String)
    (h : resp = none ∨ ∃ t, resp = some t ∧
        (jsonSpan t = none ∨ ∃ s, jsonSpan t = some s ∧ parse s = none)) :
    analyzeFeedback parse resp
      = ⟨Sentiment.neutral, Category.complaint, 3, []⟩ := by
  rcases h with rfl | ⟨t, rfl, h⟩
  · rfl
  · rcases h with h | ⟨s, hs, hp⟩
    · simp [analyzeFeedback, h, defaultAnalysis]
    · simp [analyzeFeedback, hs, hp, defaultAnalysis]

/-- Witness for C5 at a response text containing no `{...}` span. -/
theorem C5_witness :
    jsonSpan "the model returned no json at all" = none ∧
    analyzeFeedback (fun _ => none) (some "the model returned no json at all")
      = ⟨Sentiment.neutral, Category.complaint, 3, []⟩ :=
  ⟨by decide,
    C5_failures_return_default _ _ (Or.inr ⟨_, rfl, Or.inl (by decide)⟩)⟩

/-- Counterexample for C6: a parsed priority of 0 is numeric, and rounding
then clamping it into [1,5] gives 1, but the source's
`Math.round(p) || 3` treats the rounded 0 as falsy, so the sanitized
priority is 3. -/
theorem C6_counterexample :
    (analyzeFeedback (fun _ => some rawPriorityZero) (some "{}")).priority = 3 ∧
    min 5 (max 1 (round (0 : ℚ))) = 1 ∧ (3 : ℤ) ≠ 1 := by
  refine ⟨?_, by norm_num, by decide⟩
  show sanitizePriority (JVal.jnum 0) = 3
  simp [sanitizePriority, toNumber]

/-- C6 (amended): the sanitized priority equals the parsed value rounded and
clamped into [1,5] when that value is a JSON number that does not round to
0; values that round to 0 and values that do not coerce to a number fall
back to 3. -/
theorem C6_priority_round_clamp (raw : RawAnalysis) :
    (∀ q : ℚ, raw.priority = JVal.jnum q →
      (sanitizeAnalysis raw).priority
        = if round q = 0 then 3 else min 5 (max 1 (round q))) ∧
    (toNumber raw.priority = none → (sanitizeAnalysis raw).priority = 3) := by
  constructor
  · intro q hq
    show sanitizePriority raw.priority = _
    rw [hq]
    simp only [sanitizePriority, toNumber]
    split_ifs <;> norm_num
  · intro hnan
    show sanitizePriority raw.priority = _
    simp [sanitizePriority, hnan]

/-- Witness for C6 at a parsed priority of 9: rounded and clamped to 5. -/
theorem C6_witness :
    (sanitizeAnalysis rawPriorityNine).priority
        = (if round (9 : ℚ) = 0 then 3 else min 5 (max 1 (round (9 : ℚ)))) ∧
    (sanitizeAnalysis rawPriorityNine).priority = 5 := by
  have h := (C6_priority_round_clamp rawPriorityNine).1 9 rfl
  refine ⟨h, ?_⟩
  rw [h]
  norm_num [round_eq]

/-- Counterexample for C9: a parsed themes array holding a whitespace-only
string sanitizes to a themes list containing the empty string, so not every
theme entry is non-empty. -/
theorem C9_counterexample :
    "" ∈ (analyzeFeedback (fun _ => some rawBlankTheme) (some "{}")).themes := by
  decide

/-- C9 (amended): every `FeedbackAnalysis` produced by `analyzeFeedback`
carries at most 5 themes, and every theme entry is a trimmed, lowercase
string (possibly empty — no emptiness filter is applied at this layer). -/
theorem C9_themes_trimmed_lowercase (parse : String → Option RawAnalysis)
    (resp : Option String) :
    (analyzeFeedback parse resp).themes.length ≤ 5 ∧
    ∀ t ∈ (analyzeFeedback parse resp).themes, jsTrim t = t ∧ jsToLower t = t := by
  have hdef : (defaultAnalysis.themes.length ≤ 5 ∧
      ∀ t ∈ defaultAnalysis.themes, jsTrim t = t ∧ jsToLower t = t) := by
    simp [defaultAnalysis]
  have hsan : ∀ raw : RawAnalysis, (sanitizeAnalysis raw).themes.length ≤ 5 ∧
      ∀ t ∈ (sanitizeAnalysis raw).themes, jsTrim t = t ∧ jsToLower t = t := by
    intro raw
    show (sanitizeThemes raw.themes).length ≤ 5 ∧
      ∀ t ∈ sanitizeThemes raw.themes, jsTrim t = t ∧ jsToLower t = t
    cases hth : raw.themes with
    | jarr l =>
      refine ⟨?_, ?_⟩
      · simp only [sanitizeThemes, List.length_map]
        exact List.length_take_le 5 l
      · intro t ht
        simp only [sanitizeThemes, List.mem_map] at ht
        obtain ⟨v, _, hv⟩ := ht
        exact hv ▸ ⟨normTheme_trim_fix _, normTheme_lower_fix _⟩
    | jnull => simp [sanitizeThemes]
    | jbool b => simp [sanitizeThemes]
    | jnum q => simp [sanitizeThemes]
    | jstr s => simp [sanitizeThemes]
    | jobj => simp [sanitizeThemes]
  rcases resp with _ | t
  · exact hdef
  · rcases hj : jsonSpan t with _ | s
    · simpa only [analyzeFeedback, hj] using hdef
    · rcases hp : parse s with _ | raw
      · simpa only [analyzeFeedback, hj, hp] using hdef
      · simpa only [analyzeFeedback, hj, hp] using hsan raw

/-- Witness for C9 at the parsed object with a whitespace-only theme. -/
theorem C9_witness :
    (analyzeFeedback (fun _ => some rawBlankTheme) (some "{}")).themes.length ≤ 5 ∧
    ∀ t ∈ (analyzeFeedback (fun _ => some rawBlankTheme) (some "{}")).themes,
      jsTrim t = t ∧ jsToLower t = t :=
  C9_themes_trimmed_lowercase (fun _ => some rawBlankTheme) (some "{}")

/-- Counterexample for C10: a single record whose normalized theme list is
`["b","b"]` contributes 2 to the count of `b`, not 1 — the theme scan does
not deduplicate within a record. -/
theorem C10_counterexample :
    countOf "b" (themeEntries dupThemeRow) = 2 ∧ (2 : Nat) ≠ 1 :=
  ⟨by decide, by decide⟩

/-- C10 (amended): the theme scan counts every occurrence — a theme's count
equals the number of its occurrences in the flattened scan of the record
set's normalized non-empty themes. -/
theorem C10_theme_counts_every_occurrence (recs : List Row) (t : String) :
    countOf t (themeEntries recs) = (occList recs).count t :=
  countOf_themeEntries recs t

/-- C2: over a record set whose priorities respect the store's CHECK
constraint (`priority ≥ 1`), `mostUrgentIssue` is null exactly when no
negative record carries a theme, and otherwise returns an accumulated
`(theme, sum, count)` entry of the negative records that maximises the
average priority, ties broken towards the higher count, reporting the count
and the average rounded to one decimal. -/
theorem C2_mostUrgentIssue_max_avg (recs : List Row)
    (hpr : ∀ r ∈ recs, 1 ≤ r.priority) :
    (mostUrgentIssue recs = none ↔ negThemeEntries recs = []) ∧
    ∀ u, mostUrgentIssue recs = some u →
      ∃ e ∈ negThemeEntries recs,
        u.theme = e.1 ∧ u.count = e.2.2 ∧
        u.avgPriority = (round (entryAvg e * 10) : ℚ) / 10 ∧
        ∀ f ∈ negThemeEntries recs,
          entryAvg f < entryAvg e ∨ (entryAvg f = entryAvg e ∧ f.2.2 ≤ e.2.2) := by
  have hbounds := negThemeEntries_bounds recs hpr
  have hpos : ∀ e ∈ negThemeEntries recs, 0 < entryAvg e := by
    intro e he
    obtain ⟨h1, h2⟩ := hbounds e he
    have hc : (0 : ℚ) < (e.2.2 : ℚ) := by exact_mod_cast h1
    have ht : (0 : ℚ) < (e.2.1 : ℚ) := by
      have : (1 : Int) ≤ e.2.1 := le_trans (by exact_mod_cast h1) h2
      exact_mod_cast lt_of_lt_of_le zero_lt_one this
    exact div_pos ht hc
  have hU : UState (negThemeEntries recs)
      ((negThemeEntries recs).foldl urgentStep (0, none)) := by
    simpa using ustate_foldl (negThemeEntries recs) [] (0, none)
      (Or.inl ⟨rfl, by simp⟩)
  constructor
  · constructor
    · intro hnone
      simp only [mostUrgentIssue, pickUrgent] at hnone
      rcases hU with ⟨_, hall⟩ | ⟨g, hg, _, hb2, _⟩
      · cases hes : negThemeEntries recs with
        | nil => rfl
        | cons x xs =>
          have hx : x ∈ negThemeEntries recs := by rw [hes]; exact List.mem_cons_self _ _
          have h0 := hpos x hx
          rcases hall x hx with h1 | ⟨h1, _⟩ <;> linarith
      · rw [hb2] at hnone
        cases hnone
    · intro hes
      simp only [mostUrgentIssue, pickUrgent, hes, List.foldl_nil]
  · intro u hu
    simp only [mostUrgentIssue, pickUrgent] at hu
    rcases hU with ⟨hb, _⟩ | ⟨g, hg, _, hb2, hmax⟩
    · rw [hb] at hu
      cases hu
    · rw [hb2] at hu
      have hu2 : u = ⟨g.1, (round (entryAvg g * 10) : ℚ) / 10, g.2.2⟩ :=
        (Option.some.inj hu).symm
      subst hu2
      exact ⟨g, hg, rfl, rfl, rfl, hmax⟩

/-- C4: the count query and the data query share one filter predicate
(`matchesFilter`), so the total equals the length of the unpaginated data
result; that result is ordered by `created_at` descending; concatenating the
pages 1..totalPages reconstructs it exactly (no duplicates or omissions);
every page before the last has exactly `limit` rows; and `totalPages` is the
ceiling of total / limit. -/
theorem C4_pages_reconstruct_filtered_set (f : Filters) (db : List Row) (lim : Nat)
    (hlim : 0 < lim) :
    countTotal f db = (sortedFiltered f db).length ∧
    (sortedFiltered f db).Pairwise (fun a b => b.created_at ≤ a.created_at) ∧
    (List.range (totalPages (countTotal f db) lim)).flatMap
        (fun i => pageSlice f lim (i + 1) db) = sortedFiltered f db ∧
    (∀ i, i + 1 < totalPages (countTotal f db) lim →
        (pageSlice f lim (i + 1) db).length = lim) ∧
    (totalPages (countTotal f db) lim : ℤ) = ⌈(countTotal f db : ℚ) / (lim : ℚ)⌉ := by
  have hlen : countTotal f db = (sortedFiltered f db).length :=
    ((sortKeyDesc_perm Row.created_at _).length_eq).symm
  refine ⟨hlen, sortKeyDesc_sorted _ _, ?_, ?_, totalPages_eq_ceil _ _ hlim⟩
  · simp only [pageSlice, Nat.add_sub_cancel]
    exact chunks_join lim hlim _ _ (by rw [← hlen]; exact le_totalPages_mul _ _ hlim)
  · intro i hi
    have hfull : (i + 1) * lim ≤ (sortedFiltered f db).length := by
      rw [← hlen]
      exact page_full_bound _ _ _ hlim hi
    simp only [pageSlice, Nat.add_sub_cancel]
    rw [List.length_take, List.length_drop]
    rw [Nat.succ_mul] at hfull
    omega

/-- Witness for C4 at the empty filter set over a three-row store with
limit 2: two pages, the first full. -/
theorem C4_witness :
    0 < 2 ∧ totalPages (countTotal noFilters threeRowDb) 2 = 2 ∧
    (countTotal noFilters threeRowDb = (sortedFiltered noFilters threeRowDb).length ∧
      (sortedFiltered noFilters threeRowDb).Pairwise
        (fun a b => b.created_at ≤ a.created_at) ∧
      (List.range (totalPages (countTotal noFilters threeRowDb) 2)).flatMap
          (fun i => pageSlice noFilters 2 (i + 1) threeRowDb)
        = sortedFiltered noFilters threeRowDb ∧
      (∀ i, i + 1 < totalPages (countTotal noFilters threeRowDb) 2 →
          (pageSlice noFilters 2 (i + 1) threeRowDb).length = 2) ∧
      (totalPages (countTotal noFilters threeRowDb) 2 : ℤ)
        = ⌈(countTotal noFilters threeRowDb : ℚ) / ((2 : ℕ) : ℚ)⌉) :=
  ⟨by decide, by decide,
    C4_pages_reconstruct_filtered_set noFilters threeRowDb 2 (by decide)⟩

/-- C8: the effective page is at least 1 (default 1, clamped up from values
≤ 0), the effective limit lies in [1,100] (default 10, clamped into range),
the offset is `(page - 1) * limit`, `totalPages` is ⌈total / limit⌉, and
`hasNext`/`hasPrev` hold exactly on the `page < totalPages` / `page > 1`
boundaries. -/
theorem C8_pagination_params (pp lp : Option Int) (total : Nat) :
    1 ≤ effPage pp ∧ 1 ≤ effLimit lp ∧ effLimit lp ≤ 100 ∧
    (pp = none → effPage pp = 1) ∧
    (∀ v, pp = some v → v ≤ 0 → effPage pp = 1) ∧
    (lp = none → effLimit lp = 10) ∧
    offsetOf pp lp = (effPage pp - 1) * effLimit lp ∧
    (paginationMeta pp lp total).total = total ∧
    (paginationMeta pp lp total).totalPages = ⌈(total : ℚ) / (effLimit lp : ℚ)⌉ ∧
    ((paginationMeta pp lp total).hasNext = true
      ↔ effPage pp < (paginationMeta pp lp total).totalPages) ∧
    ((paginationMeta pp lp total).hasPrev = true ↔ 1 < effPage pp) := by
  refine ⟨le_max_left 1 _, ?_, min_le_left _ _, ?_, ?_, ?_, rfl, rfl, rfl, ?_, ?_⟩
  · exact le_min (by norm_num) (le_max_left 1 _)
  · intro h
    rw [h]
    rfl
  · intro v hv hle
    rw [hv]
    show max 1 v = 1
    omega
  · intro h
    rw [h]
    rfl
  · show decide (effPage pp < _) = true ↔ _
    exact decide_eq_true_iff
  · show decide (1 < effPage pp) = true ↔ _
    exact decide_eq_true_iff

/-- Witness for C8 at `page = 0`, absent `limit`, 25 matching records:
page clamps to 1, limit defaults to 10, and there are 3 pages. -/
theorem C8_witness :
    effPage (some 0) = 1 ∧ effLimit none = 10 ∧
    (paginationMeta (some 0) none 25).totalPages = 3 := by
  obtain ⟨_, _, _, _, h5, h6, _⟩ := C8_pagination_params (some 0) none 25
  refine ⟨h5 0 rfl (by norm_num), h6 rfl, ?_⟩
  rw [show (paginationMeta (some 0) none 25).totalPages
      = ⌈((25 : ℕ) : ℚ) / (((10 : ℤ)) : ℚ)⌉ from rfl]
  rw [Int.ceil_eq_iff] <;> norm_num

/-- Witness for C2: two negative records, theme `a` at priority 5 and theme
`b` at priority 4. -/
theorem C2_witness :
    (∀ r ∈ twoNegRows, 1 ≤ r.priority) ∧
    ((mostUrgentIssue twoNegRows = none ↔ negThemeEntries twoNegRows = []) ∧
      ∀ u, mostUrgentIssue twoNegRows = some u →
        ∃ e ∈ negThemeEntries twoNegRows,
          u.theme = e.1 ∧ u.count = e.2.2 ∧
          u.avgPriority = (round (entryAvg e * 10) : ℚ) / 10 ∧
          ∀ f ∈ negThemeEntries twoNegRows,
            entryAvg f < entryAvg e ∨ (entryAvg f = entryAvg e ∧ f.2.2 ≤ e.2.2)) :=
  ⟨by decide, C2_mostUrgentIssue_max_avg twoNegRows (by decide)⟩

end FeedPulse
